import Mathlib

/-!
# Verification of `sql2csv.py`

A shallow embedding of the Travian `sql2csv.py` script and proofs about it.

The script is a linear pipeline: fetch a `map.sql` text over HTTP, extract
the value tuples of `INSERT INTO \x7bbacktick\x7dx_world… statements with the regex

  `INSERT INTO ` x_world ` VALUES\s*\((.*?)\);`   (IGNORECASE)

via `re.findall`, split each tuple with `csv.reader(..., delimiter=",",
quotechar="'")`, pad/truncate each row to 16 columns, and write a CSV with a
fixed 16-column header.

Strings are modelled as `List Char` where convenient (`String` in Lean is a
structure holding exactly a `List Char`).  Machine behaviour modelled below:

* the regex scan (`reFindall`): leftmost match, continue after each match,
  advance one character after a failed attempt; the lazy group `(.*?)`
  captures the shortest run of non-newline characters followed by `");"`;
  `\s*` is greedy (deterministic here since `'('` is not whitespace);
  case-insensitivity is modelled by ASCII `Char.toLower` on both sides.
* the CPython `_csv` reader state machine for a single input line
  (`csvRun`), including the `new-line character seen in unquoted field`
  error, modelled by an `Option` result (`none` = `csv.Error` raised).
* the CPython `_csv` writer with `QUOTE_MINIMAL`, quote `"`, delimiter `,`
  and line terminator `"\r\n"` (`write_csv`).
* `main` as a function of the single fetch's outcome (`mainRun`); the
  script has `from_file = False`, so the fetch branch is the one modelled;
  filesystem writes are assumed to succeed, and are recorded in the result
  together with the stderr log and the process exit code.
-/

/-- Python `\s` on the ASCII range: the characters matched by `\s*` in the
pattern (space, tab, newline, carriage return, vertical tab, form feed). -/
def isPySpace (c : Char) : Bool :=
  c = ' ' || c = '\t' || c = '\n' || c = '\r' || c = '\x0b' || c = '\x0c'

/-- Letters-and-literals part of `INSERT_PATTERN` before `\s*\(`, lowercased.
Written in cons form so that the first pattern character is definitionally
exposed. -/
def insertLit : List Char := 'i' :: "nsert into `x_world` values".data

/-- Match a literal case-insensitively (ASCII folding, as the pattern is
ASCII) at the start of the input, returning the rest of the input. -/
def stripCaseless : List Char → List Char → Option (List Char)
  | [], cs => some cs
  | _ :: _, [] => none
  | p :: ps, c :: cs =>
    if c.toLower = p.toLower then stripCaseless ps cs else none

/-- Lazy `(.*?)\);` after the opening parenthesis: capture the shortest run
of characters, none of which may be `'\n'` (the dot does not match a
newline), followed by the literal `");"`.  Returns the captured group and
the input after the whole match. -/
def captureLazy : List Char → List Char → Option (List Char × List Char)
  | [], _ => none
  | [_], _ => none
  | c :: d :: rest, acc =>
    if c = ')' ∧ d = ';' then some (acc.reverse, rest)
    else if c = '\n' then none
    else captureLazy (d :: rest) (c :: acc)

/-- Continuation of the pattern after its literal part: greedy `\s*`, then
`'('`, then the lazy capture.  Greediness is deterministic because `'('` is
not a whitespace character. -/
def matchAfterLit (r : List Char) : Option (List Char × List Char) :=
  match r.dropWhile isPySpace with
  | [] => none
  | c :: r2 => if c = '(' then captureLazy r2 [] else none

/-- Attempt of `INSERT_PATTERN` anchored at the start of `cs`: the literal
(case-insensitive), then `matchAfterLit`.  Returns the group and the
remainder after the match. -/
def matchAt (cs : List Char) : Option (List Char × List Char) :=
  match stripCaseless insertLit cs with
  | none => none
  | some r => matchAfterLit r

/-- Scan with explicit fuel: at each position try `matchAt`; on success emit
the group and continue after the match, on failure advance one character.
Fuel `cs.length` is enough because every step consumes at least one
character. -/
def reFindallFuel : Nat → List Char → List (List Char)
  | 0, _ => []
  | _ + 1, [] => []
  | fuel + 1, c :: rest =>
    match matchAt (c :: rest) with
    | some (v, rem) => v :: reFindallFuel fuel rem
    | none => reFindallFuel fuel rest

/-- Model of `re.findall(INSERT_PATTERN, text)`: the list of captured
groups, leftmost first, non-overlapping. -/
def reFindall (cs : List Char) : List (List Char) :=
  reFindallFuel cs.length cs

/-- Model of `extract_value_strings` (src/sql2csv.py lines 33-38). -/
def extract_value_strings (sql_text : String) : List String :=
  (reFindall sql_text.data).map String.mk

/-- States of the CPython `_csv` reader automaton (escape states omitted:
the dialect has no `escapechar`). -/
inductive CsvState
  | startRecord
  | startField
  | inField
  | inQuoted
  | quoteInQuoted
  | eatCrnl
deriving DecidableEq

/-- End-of-line characters, treated specially outside quoted fields. -/
def isEol (c : Char) : Bool := c = '\n' || c = '\r'

/-- One run of the CPython `_csv` reader over the characters of a single
input line, with `delimiter=","`, `quotechar="'"`, `doublequote=True`,
`strict=False`.  `acc` is the current field, reversed.  `none` models the
`csv.Error` raised when a character follows a bare CR/LF in an unquoted
position (`new-line character seen in unquoted field`). -/
def csvRun : CsvState → List Char → List Char → Option (List (List Char))
  | .startRecord, _, [] => some []
  | .startRecord, _, c :: rest =>
    if isEol c then csvRun .eatCrnl [] rest
    else if c = '\'' then csvRun .inQuoted [] rest
    else if c = ',' then (csvRun .startField [] rest).map (fun fs => [] :: fs)
    else csvRun .inField [c] rest
  | .startField, acc, [] => some [acc.reverse]
  | .startField, acc, c :: rest =>
    if isEol c then (csvRun .eatCrnl [] rest).map (fun fs => acc.reverse :: fs)
    else if c = '\'' then csvRun .inQuoted acc rest
    else if c = ',' then (csvRun .startField [] rest).map (fun fs => acc.reverse :: fs)
    else csvRun .inField (c :: acc) rest
  | .inField, acc, [] => some [acc.reverse]
  | .inField, acc, c :: rest =>
    if isEol c then (csvRun .eatCrnl [] rest).map (fun fs => acc.reverse :: fs)
    else if c = ',' then (csvRun .startField [] rest).map (fun fs => acc.reverse :: fs)
    else csvRun .inField (c :: acc) rest
  | .inQuoted, acc, [] => some [acc.reverse]
  | .inQuoted, acc, c :: rest =>
    if c = '\'' then csvRun .quoteInQuoted acc rest
    else csvRun .inQuoted (c :: acc) rest
  | .quoteInQuoted, acc, [] => some [acc.reverse]
  | .quoteInQuoted, acc, c :: rest =>
    if c = '\'' then csvRun .inQuoted (c :: acc) rest
    else if c = ',' then (csvRun .startField [] rest).map (fun fs => acc.reverse :: fs)
    else if isEol c then (csvRun .eatCrnl [] rest).map (fun fs => acc.reverse :: fs)
    else csvRun .inField (c :: acc) rest
  | .eatCrnl, _, [] => some []
  | .eatCrnl, acc, c :: rest =>
    if isEol c then csvRun .eatCrnl acc rest
    else none

/-- Model of `next(csv.reader([record_str], delimiter=",", quotechar="'"))`:
the list of fields of the single line, or `none` when `csv.Error` is
raised. -/
def pyCsvParseLine (cs : List Char) : Option (List (List Char)) :=
  csvRun .startRecord [] cs

/-- Model of `parse_record` (src/sql2csv.py lines 41-55): split with the
csv reader, then truncate or pad to `expected_cols` fields.  `none` models
the csv exception propagating out of `parse_record`. -/
def parse_record (record_str : String) (expected_cols : Nat) : Option (List String) :=
  (pyCsvParseLine record_str.data).map fun raw =>
    let fields := raw.map String.mk
    if fields.length > expected_cols then fields.take expected_cols
    else if fields.length < expected_cols then
      fields ++ List.replicate (expected_cols - fields.length) ""
    else fields

/-- Exact headers from src/sql2csv.py lines 17-21. -/
def HEADERS : List String :=
  ["Field ID", "X", "Y", "Tribe", "Village ID", "Village name",
   "Player ID", "Player name", "Alliance ID", "Alliance Tag",
   "Population", "Region", "Capital", "City", "Harbor", "Victory points"]

/-- Criterion of the CPython `_csv` writer under `QUOTE_MINIMAL` for quoting
a field: it contains the delimiter, the quote character, or a character of
the line terminator `"\r\n"`. -/
def needsQuote (f : String) : Bool :=
  f.data.any fun c => c = ',' || c = '"' || c = '\n' || c = '\r'

/-- Double every `'"'` inside a quoted field (`doublequote=True`). -/
def escapeQuotes (f : String) : String :=
  String.mk (f.data.foldr (fun c acc => if c = '"' then '"' :: '"' :: acc else c :: acc) [])

/-- Rendering of one field by the `_csv` writer. -/
def renderField (f : String) : String :=
  if needsQuote f then "\"" ++ escapeQuotes f ++ "\"" else f

/-- Rendering of one row by `writer.writerow` (without the terminator).  A
row consisting of a single empty field is written as a pair of quotes, the
writer's disambiguation against a blank line. -/
def renderRow (row : List String) : String :=
  if row = [""] then "\"\"" else String.intercalate "," (row.map renderField)

/-- Rows rendered and terminated with the writer's default `"\r\n"`. -/
def csvLines : List (List String) → String
  | [] => ""
  | row :: rows => renderRow row ++ "\r\n" ++ csvLines rows

/-- Model of `write_csv` (src/sql2csv.py lines 58-63): the full text written
to the output file, one header row followed by the record rows. -/
def write_csv (records : List (List String)) : String :=
  csvLines (HEADERS :: records)

/-- List traversal with `Option`, modelling a Python list comprehension in
which each element may raise (`none` = some call raised). -/
def mapOption (f : α → Option β) : List α → Option (List β)
  | [] => some []
  | a :: as =>
    match f a, mapOption f as with
    | some b, some bs => some (b :: bs)
    | _, _ => none

/-- Fixed URL from `main`. -/
def URL : String := "https://ts21.x2.international.travian.com/map.sql"

/-- Outcome of the single `requests.get` in `fetch_sql`: the response text
on success, a `requests.RequestException` (non-2xx raised by
`raise_for_status`, or a transport error), or any other exception raised
while fetching. -/
inductive FetchOutcome
  | success (text : String)
  | requestError (msg : String)
  | otherError (msg : String)

/-- Observable outcome of one run of `main`: the process exit code, the
content written to the `map.sql` cache file (if written), the records
passed to `write_csv` for `map.csv` (if reached; the file content is then
`write_csv` of them), the stderr prints in order, and how many times the
URL was fetched. -/
structure MainResult where
  exitCode : Nat
  cacheFile : Option String
  csvArg : Option (List (List String))
  stderrLog : List String
  fetchCalls : Nat

/-- Message of the `csv.Error` that `parse_record` can raise, reported by
the catch-all handler. -/
def csvNewlineErrorMsg : String :=
  "new-line character seen in unquoted field - do you need to open the file in universal newline mode?"

/-- First stderr line of every run. -/
def fetchingMsg : String := "Fetching SQL from " ++ URL ++ "…"

/-- Model of `main` (src/sql2csv.py lines 66-105) as a function of the
fetch outcome.  The script sets `from_file = False`, so the fetch branch is
taken; file writes are assumed to succeed.  The cache write happens before
extraction, hence in every `success` branch. -/
def mainRun : FetchOutcome → MainResult
  | .requestError m =>
    { exitCode := 1, cacheFile := none, csvArg := none,
      stderrLog := [fetchingMsg, "Error fetching SQL: " ++ m], fetchCalls := 1 }
  | .otherError m =>
    { exitCode := 1, cacheFile := none, csvArg := none,
      stderrLog := [fetchingMsg, "Unexpected error: " ++ m], fetchCalls := 1 }
  | .success t =>
    if extract_value_strings t = [] then
      { exitCode := 1, cacheFile := some t, csvArg := none,
        stderrLog := [fetchingMsg, "Saving fetched SQL to map.sql…",
                      "Extracting INSERT records…",
                      "No `x_world` INSERTs found in the SQL!"],
        fetchCalls := 1 }
    else
      match mapOption (fun r => parse_record r 16) (extract_value_strings t) with
      | none =>
        { exitCode := 1, cacheFile := some t, csvArg := none,
          stderrLog := [fetchingMsg, "Saving fetched SQL to map.sql…",
                        "Extracting INSERT records…",
                        "Parsing " ++ toString (extract_value_strings t).length ++ " records…",
                        "Unexpected error: " ++ csvNewlineErrorMsg],
          fetchCalls := 1 }
      | some parsed =>
        { exitCode := 0, cacheFile := some t, csvArg := some parsed,
          stderrLog := [fetchingMsg, "Saving fetched SQL to map.sql…",
                        "Extracting INSERT records…",
                        "Parsing " ++ toString (extract_value_strings t).length ++ " records…",
                        "Writing CSV to map.csv…", "Done!"],
          fetchCalls := 1 }

/-- Well-formed `x_world` INSERT text: one statement per value string, each
on its own line.  The header spelling is the canonical uppercase one. -/
def mkTextS : List String → String
  | [] => ""
  | v :: vs => "INSERT INTO `x_world` VALUES (" ++ v ++ ");\n" ++ mkTextS vs

/-- Absence of the two-character terminator `");"` inside a value string. -/
def hasRS : List Char → Bool
  | [] => false
  | [_] => false
  | a :: b :: rest => (a = ')' && b = ';') || hasRS (b :: rest)

/-- Whether `INSERT_PATTERN`'s literal part matches (caselessly) at the
start of `cs`. -/
def hdrAt (cs : List Char) : Bool :=
  (stripCaseless insertLit cs).isSome

/-- Comma-terminated unquoted fields standing before a field of interest. -/
def mkFieldsBefore : List (List Char) → List Char
  | [] => []
  | p :: ps => p ++ ',' :: mkFieldsBefore ps

/-- Characters an unquoted field may consist of without influencing the
reader's control flow: not the delimiter, not the quote, not CR/LF. -/
def plainChar (c : Char) : Bool :=
  !(c = ',' || c = '\'' || isEol c)

/-- Single statement whose opening is spelled in lower case. -/
def lcStmt (v : List Char) : List Char :=
  "insert into `x_world` values (".data ++ (v ++ ')' :: ';' :: [])

/-- Single statement whose value list spans two lines: a newline stands
between `a` and `b` inside the parentheses. -/
def mlText (a b : List Char) : List Char :=
  "INSERT INTO `x_world` VALUES (".data ++ (a ++ '\n' :: (b ++ [')', ';']))

theorem hasRS_cons_false {x : Char} {l : List Char} (h : hasRS (x :: l) = false) :
    hasRS l = false := by
  cases l with
  | nil => rfl
  | cons y l' =>
    simp only [hasRS, Bool.or_eq_false_iff] at h
    exact h.2

theorem stripCaseless_append {p q t r : List Char}
    (h : stripCaseless p q = some r) :
    stripCaseless p (q ++ t) = some (r ++ t) := by
  induction p generalizing q r with
  | nil =>
    simp only [stripCaseless, Option.some.injEq] at h
    simp [stripCaseless, h]
  | cons a ps ih =>
    cases q with
    | nil => simp [stripCaseless] at h
    | cons c q' =>
      simp only [stripCaseless] at h ⊢
      by_cases hc : c.toLower = a.toLower
      · simp only [hc, if_pos rfl] at h ⊢
        exact ih h
      · simp [hc] at h

theorem stripCaseless_length {p q r : List Char}
    (h : stripCaseless p q = some r) : r.length + p.length = q.length := by
  induction p generalizing q r with
  | nil =>
    simp only [stripCaseless, Option.some.injEq] at h
    simp [h]
  | cons a ps ih =>
    cases q with
    | nil => simp [stripCaseless] at h
    | cons c q' =>
      simp only [stripCaseless] at h
      by_cases hc : c.toLower = a.toLower
      · simp only [hc, if_pos rfl] at h
        have := ih h
        simp only [List.length_cons]
        omega
      · simp [hc] at h

theorem captureLazy_length {cs acc v rem : List Char}
    (h : captureLazy cs acc = some (v, rem)) : rem.length < cs.length := by
  induction cs generalizing acc with
  | nil => simp [captureLazy] at h
  | cons c cs' ih =>
    cases cs' with
    | nil => simp [captureLazy] at h
    | cons d rest =>
      simp only [captureLazy] at h
      split at h
      · cases h
        simp
        omega
      · split at h
        · cases h
        · have := ih h
          simp only [List.length_cons] at this ⊢
          omega

theorem captureLazy_spec :
    ∀ (v rest acc : List Char), hasRS v = false → '\n' ∉ v →
      captureLazy (v ++ ')' :: ';' :: rest) acc = some (acc.reverse ++ v, rest)
  | [], rest, acc, _, _ => by
    simp [captureLazy]
  | [x], rest, acc, _, hn => by
    have hx : x ≠ '\n' := by
      intro hx
      exact hn (by simp [hx])
    have hxs : ¬(x = ')' ∧ ')' = ';') := by
      rintro ⟨-, h⟩
      exact absurd h (by decide)
    simp only [List.cons_append, List.nil_append, captureLazy, if_neg hxs, if_neg hx]
    simp [captureLazy]
  | x :: y :: v', rest, acc, hrs, hn => by
    have hx : x ≠ '\n' := by
      intro hx
      exact hn (by simp [hx])
    have hn' : '\n' ∉ y :: v' := by
      intro hmem
      exact hn (List.mem_cons_of_mem x hmem)
    have hrs' : hasRS (y :: v') = false := hasRS_cons_false hrs
    have hxy : ¬(x = ')' ∧ y = ';') := by
      rintro ⟨h1, h2⟩
      simp [hasRS, h1, h2] at hrs
    have step := captureLazy_spec (y :: v') rest (x :: acc) hrs' hn'
    simp only [List.cons_append, captureLazy, if_neg hxy, if_neg hx]
    simp only [List.cons_append] at step
    rw [show (y :: v'.append (')' :: ';' :: rest)) = y :: (v' ++ ')' :: ';' :: rest)
          from rfl, step]
    simp

theorem captureLazy_newline :
    ∀ (a : List Char), hasRS a = false →
      ∀ (c acc : List Char), captureLazy (a ++ '\n' :: c) acc = none
  | [], _, c, acc => by
    cases c with
    | nil => simp [captureLazy]
    | cons d c' =>
      have hnd : ¬(('\n' : Char) = ')' ∧ d = ';') := by
        rintro ⟨h, -⟩
        exact absurd h (by decide)
      simp [captureLazy, hnd]
  | [x], hrs, c, acc => by
    have hxn : ¬(x = ')' ∧ ('\n' : Char) = ';') := by
      rintro ⟨-, h⟩
      exact absurd h (by decide)
    by_cases hx : x = '\n'
    · simp [captureLazy, hxn, hx]
    · simp only [List.cons_append, List.nil_append, captureLazy, if_neg hxn, if_neg hx]
      exact captureLazy_newline [] rfl c (x :: acc)
  | x :: y :: a', hrs, c, acc => by
    have hxy : ¬(x = ')' ∧ y = ';') := by
      rintro ⟨h1, h2⟩
      simp [hasRS, h1, h2] at hrs
    by_cases hx : x = '\n'
    · simp [captureLazy, hxy, hx]
    · simp only [List.cons_append, captureLazy, if_neg hxy, if_neg hx]
      exact captureLazy_newline (y :: a') (hasRS_cons_false hrs) c (x :: acc)

theorem matchAt_nil : matchAt [] = none := by decide

theorem matchAt_strip_none {cs : List Char}
    (hs : stripCaseless insertLit cs = none) : matchAt cs = none := by
  unfold matchAt
  rw [hs]

theorem matchAt_strip_some {cs r : List Char}
    (hs : stripCaseless insertLit cs = some r) : matchAt cs = matchAfterLit r := by
  unfold matchAt
  rw [hs]

theorem matchAt_none_of_noHdr {cs : List Char} (h : hdrAt cs = false) :
    matchAt cs = none := by
  unfold hdrAt at h
  cases hs : stripCaseless insertLit cs with
  | none => exact matchAt_strip_none hs
  | some r => simp [hs] at h

theorem matchAt_newline (rest : List Char) : matchAt ('\n' :: rest) = none := by
  apply matchAt_none_of_noHdr
  simp [hdrAt, insertLit, stripCaseless]

theorem matchAt_some_length {cs v rem : List Char}
    (h : matchAt cs = some (v, rem)) : rem.length < cs.length := by
  cases hs : stripCaseless insertLit cs with
  | none => rw [matchAt_strip_none hs] at h; cases h
  | some r =>
    rw [matchAt_strip_some hs] at h
    have hr : r.length + insertLit.length = cs.length := stripCaseless_length hs
    unfold matchAfterLit at h
    cases hd : r.dropWhile isPySpace with
    | nil => rw [hd] at h; cases h
    | cons c r2 =>
      rw [hd] at h
      dsimp only at h
      have hdl : (c :: r2).length ≤ r.length := by
        rw [← hd]
        exact (List.dropWhile_suffix isPySpace).length_le
      by_cases hc : c = '('
      · rw [if_pos hc] at h
        have := captureLazy_length h
        simp only [List.length_cons] at hdl
        simp only [insertLit, List.length_cons] at hr
        omega
      · rw [if_neg hc] at h
        cases h

/-- Matching the whole pattern at a position where a full well-formed
statement begins: `hdr` is any caseless spelling of the literal followed by
one space and `'('`. -/
theorem matchAt_build {hdr : List Char}
    (hh : stripCaseless insertLit hdr = some [' ', '(']) (v rest : List Char)
    (hrs : hasRS v = false) (hn : '\n' ∉ v) :
    matchAt (hdr ++ (v ++ ')' :: ';' :: rest)) = some (v, rest) := by
  rw [matchAt_strip_some (stripCaseless_append hh)]
  unfold matchAfterLit
  have hdw : ([' ', '('] ++ (v ++ ')' :: ';' :: rest)).dropWhile isPySpace =
      '(' :: (v ++ ')' :: ';' :: rest) := by
    simp [List.dropWhile, isPySpace]
  rw [hdw]
  simpa using captureLazy_spec v rest [] hrs hn

theorem reFindallFuel_nil (fuel : Nat) : reFindallFuel fuel [] = [] := by
  cases fuel <;> rfl

theorem reFindallFuel_congr :
    ∀ (f₁ : Nat) (cs : List Char) (f₂ : Nat), cs.length ≤ f₁ → cs.length ≤ f₂ →
      reFindallFuel f₁ cs = reFindallFuel f₂ cs
  | 0, cs, f₂, h₁, _ => by
    have : cs = [] := List.eq_nil_of_length_eq_zero (Nat.le_zero.mp h₁)
    subst this
    rw [reFindallFuel_nil, reFindallFuel_nil]
  | f₁ + 1, [], f₂, _, _ => by rw [reFindallFuel_nil, reFindallFuel_nil]
  | f₁ + 1, c :: rest, f₂, h₁, h₂ => by
    cases f₂ with
    | zero => simp at h₂
    | succ f₂' =>
      simp only [reFindallFuel]
      cases hm : matchAt (c :: rest) with
      | none =>
        dsimp only
        simp only [List.length_cons] at h₁ h₂
        exact reFindallFuel_congr f₁ rest f₂' (by omega) (by omega)
      | some pr =>
        obtain ⟨v, rem⟩ := pr
        dsimp only
        have hlt := matchAt_some_length hm
        simp only [List.length_cons] at h₁ h₂ hlt
        exact congrArg _ (reFindallFuel_congr f₁ rem f₂' (by omega) (by omega))

theorem reFindall_eq_cons {cs v rem : List Char} (h : matchAt cs = some (v, rem)) :
    reFindall cs = v :: reFindall rem := by
  cases cs with
  | nil => rw [matchAt_nil] at h; cases h
  | cons c rest =>
    unfold reFindall
    simp only [List.length_cons, reFindallFuel, h]
    have hlt := matchAt_some_length h
    simp only [List.length_cons] at hlt
    exact congrArg _ (reFindallFuel_congr rest.length rem rem.length (by omega) le_rfl)

theorem reFindall_skip {c : Char} {rest : List Char} (h : matchAt (c :: rest) = none) :
    reFindall (c :: rest) = reFindall rest := by
  unfold reFindall
  simp only [List.length_cons, reFindallFuel, h]

theorem reFindall_nil_of_none :
    ∀ cs : List Char, (∀ n, matchAt (cs.drop n) = none) → reFindall cs = []
  | [], _ => rfl
  | c :: rest, h => by
    rw [reFindall_skip (by simpa using h 0)]
    exact reFindall_nil_of_none rest fun n => by simpa using h (n + 1)

/-- Uppercase statement opening as spelled by `mkTextS`. -/
theorem stripCaseless_ucHdr :
    stripCaseless insertLit "INSERT INTO `x_world` VALUES (".data = some [' ', '('] := by
  decide

theorem data_mkTextS_cons (v : String) (vs : List String) :
    (mkTextS (v :: vs)).data =
      "INSERT INTO `x_world` VALUES (".data ++
        (v.data ++ ')' :: ';' :: '\n' :: (mkTextS vs).data) := by
  show (("INSERT INTO `x_world` VALUES (" ++ v ++ ");\n" ++ mkTextS vs)).data = _
  simp [String.data_append]

/-- Extraction over a well-formed statement list returns exactly the value
strings, in order.  Well-formed: each value string is newline-free and does
not contain the terminator `");"`. -/
theorem extract_mkTextS (vs : List String)
    (h : ∀ v ∈ vs, '\n' ∉ v.data ∧ hasRS v.data = false) :
    extract_value_strings (mkTextS vs) = vs := by
  unfold extract_value_strings
  induction vs with
  | nil => simp [mkTextS, reFindall, reFindallFuel]
  | cons v vs ih =>
    have hv := h v (List.mem_cons_self v vs)
    have hrest : ∀ w ∈ vs, '\n' ∉ w.data ∧ hasRS w.data = false :=
      fun w hw => h w (List.mem_cons_of_mem v hw)
    rw [data_mkTextS_cons,
      reFindall_eq_cons (matchAt_build stripCaseless_ucHdr v.data _ hv.2 hv.1),
      reFindall_skip (matchAt_newline _)]
    simp only [List.map_cons, ih hrest]

theorem csvRun_startRecord_eq {c : Char} (cs : List Char) (h : isEol c = false) :
    csvRun .startRecord [] (c :: cs) = csvRun .startField [] (c :: cs) := by
  simp [csvRun, h]

theorem csvRun_inQuoted_append (inner : List Char) (hq : '\'' ∉ inner) :
    ∀ (acc tail : List Char),
      csvRun .inQuoted acc (inner ++ '\'' :: tail) =
        csvRun .quoteInQuoted (inner.reverse ++ acc) tail := by
  induction inner with
  | nil => intro acc tail; simp [csvRun]
  | cons c inner' ih =>
    intro acc tail
    have hc : ¬(c = '\'') := fun h => hq (by simp [h])
    have hq' : '\'' ∉ inner' := fun h => hq (List.mem_cons_of_mem c h)
    simp only [List.cons_append, csvRun, if_neg hc, List.append_eq]
    rw [ih hq' (c :: acc)]
    simp

theorem csvRun_inField_append (p : List Char) (hp : ∀ c ∈ p, plainChar c) :
    ∀ (acc s : List Char),
      csvRun .inField acc (p ++ ',' :: s) =
        (csvRun .startField [] s).map (fun fs => (acc.reverse ++ p) :: fs) := by
  induction p with
  | nil =>
    intro acc s
    simp [csvRun, isEol]
  | cons c p' ih =>
    intro acc s
    have hc := hp c (List.mem_cons_self c p')
    simp only [plainChar, Bool.not_eq_true', Bool.or_eq_false_iff,
      decide_eq_false_iff_not] at hc
    have hp' : ∀ d ∈ p', plainChar d := fun d hd => hp d (List.mem_cons_of_mem c hd)
    simp only [List.cons_append, csvRun, hc.1.2, if_neg hc.1.1, if_false, List.append_eq]
    rw [if_neg (by simp [hc.2]), ih hp' (c :: acc)]
    simp

theorem csvRun_startField_plain (p : List Char) (hp : ∀ c ∈ p, plainChar c)
    (s : List Char) :
    csvRun .startField [] (p ++ ',' :: s) =
      (csvRun .startField [] s).map (fun fs => p :: fs) := by
  cases p with
  | nil => simp [csvRun, isEol]
  | cons c p' =>
    have hc := hp c (List.mem_cons_self c p')
    simp only [plainChar, Bool.not_eq_true', Bool.or_eq_false_iff,
      decide_eq_false_iff_not] at hc
    have hp' : ∀ d ∈ p', plainChar d := fun d hd => hp d (List.mem_cons_of_mem c hd)
    simp only [List.cons_append, csvRun, hc.1.2, if_neg hc.1.1, if_false, List.append_eq]
    rw [if_neg (by simp [hc.2]), csvRun_inField_append p' hp' [c]]
    simp

theorem csvRun_fieldsBefore (ps : List (List Char))
    (hps : ∀ p ∈ ps, ∀ c ∈ p, plainChar c) :
    ∀ s : List Char,
      csvRun .startField [] (mkFieldsBefore ps ++ s) =
        (csvRun .startField [] s).map (fun fs => ps ++ fs) := by
  induction ps with
  | nil =>
    intro s
    simp [mkFieldsBefore]
  | cons p ps' ih =>
    intro s
    have hp := hps p (List.mem_cons_self p ps')
    have hps' : ∀ q ∈ ps', ∀ c ∈ q, plainChar c :=
      fun q hq => hps q (List.mem_cons_of_mem p hq)
    show csvRun .startField [] ((p ++ ',' :: mkFieldsBefore ps') ++ s) = _
    rw [List.append_assoc, List.cons_append,
      csvRun_startField_plain p hp (mkFieldsBefore ps' ++ s), ih hps']
    cases csvRun .startField [] s <;> simp

theorem csvRun_quotedField (inner : List Char) (hq : '\'' ∉ inner)
    (rest : List Char) :
    csvRun .startField [] ('\'' :: (inner ++ '\'' :: ',' :: rest)) =
      (csvRun .startField [] rest).map (fun fs => inner :: fs) := by
  have h1 : csvRun .startField [] ('\'' :: (inner ++ '\'' :: ',' :: rest)) =
      csvRun .inQuoted [] (inner ++ '\'' :: ',' :: rest) := by
    simp [csvRun, isEol]
  rw [h1, csvRun_inQuoted_append inner hq [] (',' :: rest)]
  simp [csvRun]

theorem mapOption_length {f : α → Option β} :
    ∀ {l : List α} {bs : List β}, mapOption f l = some bs → bs.length = l.length := by
  intro l
  induction l with
  | nil => intro bs h; simp [mapOption] at h; simp [← h]
  | cons a as ih =>
    intro bs h
    simp only [mapOption] at h
    cases hfa : f a with
    | none => rw [hfa] at h; cases h
    | some b =>
      rw [hfa] at h
      cases hrest : mapOption f as with
      | none => rw [hrest] at h; cases h
      | some bs' =>
        rw [hrest] at h
        cases h
        simp [ih hrest]

theorem parse_record_length {s : String} {n : Nat} {r : List String}
    (h : parse_record s n = some r) : r.length = n := by
  unfold parse_record at h
  cases hp : pyCsvParseLine s.data with
  | none => rw [hp] at h; cases h
  | some raw =>
    rw [hp] at h
    simp only [Option.map_some'] at h
    cases h
    set fields := raw.map String.mk with hf
    by_cases h1 : fields.length > n
    · simp only [if_pos h1, List.length_take]
      omega
    · rw [if_neg h1]
      by_cases h2 : fields.length < n
      · simp only [if_pos h2, List.length_append, List.length_replicate]
        omega
      · simp only [if_neg h2]
        omega

example : pyCsvParseLine "".data = some [] := by decide
example : pyCsvParseLine "1,-200,'00,6',x".data =
    some [['1'], ['-', '2', '0', '0'], ['0', '0', ',', '6'], ['x']] := by decide
example : pyCsvParseLine "a\rb".data = none := by decide
example : pyCsvParseLine "a\r".data = some [['a']] := by decide
example : parse_record "a,b" 3 = some ["a", "b", ""] := by decide
example : parse_record "a,b,c,d" 3 = some ["a", "b", "c"] := by decide
example : reFindall "INSERT INTO `x_world` VALUES (1,2);".data = [['1', ',', '2']] := by
  decide
example : reFindall "insert into `x_world` values(7);".data = [['7']] := by decide
example : reFindall "INSERT INTO `x_world` VALUES (1,\n2);".data = [] := by decide
example : extract_value_strings "INSERT INTO `x_world` VALUES (1);\nINSERT INTO `x_world` VALUES (2);\n" = ["1", "2"] := by decide

/-- C1 counterexample: the value string `"a\rb"` (extracted from a
well-formed statement, since the regex dot matches a carriage return) makes
the csv reader raise `csv.Error`, so `parse_record` raises instead of
returning a 16-field list. -/
theorem parse_record_cr_raises :
    extract_value_strings "INSERT INTO `x_world` VALUES (a\rb);" = ["a\rb"] ∧
    parse_record "a\rb" 16 = none := by
  constructor
  · decide
  · decide

/-- C1 (amended): for every value string on which the single-quote csv
split succeeds — which holds in particular for every string without CR/LF
characters — `parse_record` with `expected_cols = 16` returns exactly 16
fields: the parsed fields padded with empty strings when fewer than 16,
the first 16 parsed fields when more. -/
theorem parse_record_pads_or_truncates (s : String) (fields : List (List Char))
    (h : pyCsvParseLine s.data = some fields) :
    ∃ r, parse_record s 16 = some r ∧ r.length = 16 ∧
      (fields.length ≤ 16 →
        r = fields.map String.mk ++ List.replicate (16 - fields.length) "") ∧
      (16 < fields.length → r = (fields.map String.mk).take 16) := by
  have hrec : parse_record s 16 =
      some (if (fields.map String.mk).length > 16 then (fields.map String.mk).take 16
            else if (fields.map String.mk).length < 16 then
              fields.map String.mk ++
                List.replicate (16 - (fields.map String.mk).length) ""
            else fields.map String.mk) := by
    unfold parse_record
    rw [h]
    rfl
  have hml : (fields.map String.mk).length = fields.length := List.length_map _ _
  refine ⟨_, hrec, ?_, ?_, ?_⟩
  · by_cases hgt : (fields.map String.mk).length > 16
    · rw [if_pos hgt]
      simp only [List.length_take]
      omega
    · rw [if_neg hgt]
      by_cases hlt : (fields.map String.mk).length < 16
      · rw [if_pos hlt]
        simp only [List.length_append, List.length_replicate]
        omega
      · rw [if_neg hlt]
        omega
  · intro hle
    rw [if_neg (by omega)]
    by_cases hlt : (fields.map String.mk).length < 16
    · rw [if_pos hlt, hml]
    · have h16 : fields.length = 16 := by omega
      rw [if_neg hlt, h16]
      simp
  · intro hgt
    rw [if_pos (by omega)]

/-- C1 witness: the amended theorem applied at the concrete value string
`"1,2"`, whose two parsed fields are padded to 16. -/
theorem parse_record_pads_or_truncates_w :
    ∃ r, parse_record "1,2" 16 = some r ∧ r.length = 16 ∧
      (([['1'], ['2']] : List (List Char)).length ≤ 16 →
        r = ([['1'], ['2']] : List (List Char)).map String.mk ++
          List.replicate (16 - ([['1'], ['2']] : List (List Char)).length) "") ∧
      (16 < ([['1'], ['2']] : List (List Char)).length →
        r = (([['1'], ['2']] : List (List Char)).map String.mk).take 16) :=
  parse_record_pads_or_truncates "1,2" [['1'], ['2']] (by decide)

/-- C2: on a text consisting of well-formed `x_world` INSERT statements
(one per value string, each value string newline-free and without the
terminator sequence `");"`), `extract_value_strings` returns exactly one
value string per statement. -/
theorem extract_count_eq (vs : List String)
    (h : ∀ v ∈ vs, '\n' ∉ v.data ∧ hasRS v.data = false) :
    (extract_value_strings (mkTextS vs)).length = vs.length := by
  rw [extract_mkTextS vs h]

/-- C2 witness: two statements yield two value strings. -/
theorem extract_count_eq_w :
    (extract_value_strings (mkTextS ["1,-200,200,2", "5,'a,b'"])).length =
      (["1,-200,200,2", "5,'a,b'"] : List String).length :=
  extract_count_eq ["1,-200,200,2", "5,'a,b'"] (by decide)

set_option maxRecDepth 4096 in
/-- C4: for every record list, the CSV text produced by `write_csv` begins
with the fixed 16-column header row as its first line (the header renders
unquoted and contains no line break, and is followed by the writer's
`"\r\n"` terminator and then the record lines). -/
theorem write_csv_header_first (records : List (List String)) :
    write_csv records =
      "Field ID,X,Y,Tribe,Village ID,Village name,Player ID,Player name,Alliance ID,Alliance Tag,Population,Region,Capital,City,Harbor,Victory points\r\n"
        ++ csvLines records ∧
    HEADERS.length = 16 ∧
    ∀ c ∈ ("Field ID,X,Y,Tribe,Village ID,Village name,Player ID,Player name,Alliance ID,Alliance Tag,Population,Region,Capital,City,Harbor,Victory points" : String).data,
      ¬ isEol c := by
  refine ⟨?_, by decide, by decide⟩
  have h1 : write_csv records = renderRow HEADERS ++ "\r\n" ++ csvLines records := rfl
  rw [h1,
    (by decide : renderRow HEADERS ++ "\r\n" =
      "Field ID,X,Y,Tribe,Village ID,Village name,Player ID,Player name,Alliance ID,Alliance Tag,Population,Region,Capital,City,Harbor,Victory points\r\n")]

/-- C3 counterexample: a value string whose single-quoted comma-containing
field is the 17th field.  `parse_record` truncates to the first 16 fields,
so the quoted content `x,y` is not kept as a field of the result at all. -/
theorem parse_record_drops_late_quoted_field :
    parse_record "1,2,3,4,5,6,7,8,9,10,11,12,13,14,15,16,'x,y'" 16 =
      some ["1", "2", "3", "4", "5", "6", "7", "8", "9", "10", "11", "12",
            "13", "14", "15", "16"] ∧
    ("x,y" : String) ∉
      (["1", "2", "3", "4", "5", "6", "7", "8", "9", "10", "11", "12",
        "13", "14", "15", "16"] : List String) := by
  constructor
  · decide
  · decide

/-- C3 (amended): a field enclosed in single quotes whose content contains
a comma (and no quote character) is never split at the internal comma: the
csv split yields the quoted content as one whole field, and `parse_record`
keeps it as a single field of its output whenever it stands among the
first 16 fields; a quoted field past the 16th is dropped whole by
truncation.  Here the quoted field follows `ps.length` unquoted fields. -/
theorem parse_record_keeps_quoted_comma
    (ps : List (List Char)) (inner rest : List Char) (tailF : List (List Char))
    (hps : ∀ p ∈ ps, ∀ c ∈ p, plainChar c)
    (hq : '\'' ∉ inner) (_hcomma : ',' ∈ inner) (hlen : ps.length < 16)
    (hrest : csvRun .startField [] rest = some tailF) :
    pyCsvParseLine (mkFieldsBefore ps ++ '\'' :: (inner ++ '\'' :: ',' :: rest)) =
      some (ps ++ inner :: tailF) ∧
    ∃ r, parse_record
        (String.mk (mkFieldsBefore ps ++ '\'' :: (inner ++ '\'' :: ',' :: rest))) 16 =
          some r ∧
      String.mk inner ∈ r := by
  have key : csvRun .startField []
      (mkFieldsBefore ps ++ '\'' :: (inner ++ '\'' :: ',' :: rest)) =
        some (ps ++ inner :: tailF) := by
    rw [csvRun_fieldsBefore ps hps, csvRun_quotedField inner hq rest, hrest]
    rfl
  have hline : pyCsvParseLine
      (mkFieldsBefore ps ++ '\'' :: (inner ++ '\'' :: ',' :: rest)) =
        some (ps ++ inner :: tailF) := by
    unfold pyCsvParseLine
    rw [← key]
    cases ps with
    | nil => exact csvRun_startRecord_eq _ (by decide)
    | cons p ps' =>
      cases p with
      | nil =>
        show csvRun .startRecord [] (',' :: _) = csvRun .startField [] (',' :: _)
        exact csvRun_startRecord_eq _ (by decide)
      | cons c p' =>
        have hc : plainChar c :=
          hps (c :: p') (List.mem_cons_self _ _) c (List.mem_cons_self _ _)
        have hce : isEol c = false := by
          simp only [plainChar, Bool.not_eq_true', Bool.or_eq_false_iff] at hc
          exact hc.2
        show csvRun .startRecord [] (c :: _) = csvRun .startField [] (c :: _)
        exact csvRun_startRecord_eq _ hce
  refine ⟨hline, ?_⟩
  have hpr : parse_record
      (String.mk (mkFieldsBefore ps ++ '\'' :: (inner ++ '\'' :: ',' :: rest))) 16 =
      some (if ((ps ++ inner :: tailF).map String.mk).length > 16 then
              ((ps ++ inner :: tailF).map String.mk).take 16
            else if ((ps ++ inner :: tailF).map String.mk).length < 16 then
              (ps ++ inner :: tailF).map String.mk ++
                List.replicate (16 - ((ps ++ inner :: tailF).map String.mk).length) ""
            else (ps ++ inner :: tailF).map String.mk) := by
    unfold parse_record
    rw [show (String.mk (mkFieldsBefore ps ++ '\'' :: (inner ++ '\'' :: ',' :: rest))).data
          = mkFieldsBefore ps ++ '\'' :: (inner ++ '\'' :: ',' :: rest) from rfl, hline]
    rfl
  refine ⟨_, hpr, ?_⟩
  have hsplit : (ps ++ inner :: tailF).map String.mk =
      ps.map String.mk ++ String.mk inner :: tailF.map String.mk := by
    simp
  have hA : (ps.map String.mk).length = ps.length := List.length_map _ _
  have hmemF : String.mk inner ∈ (ps ++ inner :: tailF).map String.mk := by
    rw [hsplit]
    simp
  by_cases hgt : ((ps ++ inner :: tailF).map String.mk).length > 16
  · rw [if_pos hgt, hsplit, List.take_append_eq_append_take,
      List.take_of_length_le (by omega : (ps.map String.mk).length ≤ 16)]
    obtain ⟨k, hk⟩ : ∃ k, 16 - (ps.map String.mk).length = k + 1 :=
      ⟨15 - ps.length, by omega⟩
    rw [hk, List.take_succ_cons]
    simp
  · rw [if_neg hgt]
    by_cases hlt : ((ps ++ inner :: tailF).map String.mk).length < 16
    · rw [if_pos hlt]
      exact List.mem_append_left _ hmemF
    · rw [if_neg hlt]
      exact hmemF

theorem mapOption_mem {f : α → Option β} :
    ∀ {l : List α} {bs : List β}, mapOption f l = some bs →
      ∀ b ∈ bs, ∃ a ∈ l, f a = some b := by
  intro l
  induction l with
  | nil =>
    intro bs h b hb
    simp only [mapOption, Option.some.injEq] at h
    rw [← h] at hb
    cases hb
  | cons a as ih =>
    intro bs h b hb
    simp only [mapOption] at h
    cases hfa : f a with
    | none => rw [hfa] at h; cases h
    | some b' =>
      rw [hfa] at h
      cases hrest : mapOption f as with
      | none => rw [hrest] at h; cases h
      | some bs' =>
        rw [hrest] at h
        cases h
        rcases List.mem_cons.mp hb with hb1 | hb2
        · exact ⟨a, List.mem_cons_self _ _, by rw [hfa, hb1]⟩
        · obtain ⟨a', ha', hfa'⟩ := ih hrest b hb2
          exact ⟨a', List.mem_cons_of_mem _ ha', hfa'⟩

theorem mainRun_success_empty {t : String} (he : extract_value_strings t = []) :
    mainRun (.success t) =
      { exitCode := 1, cacheFile := some t, csvArg := none,
        stderrLog := [fetchingMsg, "Saving fetched SQL to map.sql…",
                      "Extracting INSERT records…",
                      "No `x_world` INSERTs found in the SQL!"],
        fetchCalls := 1 } := by
  unfold mainRun
  dsimp only
  rw [he]
  rfl

theorem mainRun_success_parsed {t : String} {parsed : List (List String)}
    (hne : extract_value_strings t ≠ [])
    (hp : mapOption (fun r => parse_record r 16) (extract_value_strings t) = some parsed) :
    mainRun (.success t) =
      { exitCode := 0, cacheFile := some t, csvArg := some parsed,
        stderrLog := [fetchingMsg, "Saving fetched SQL to map.sql…",
                      "Extracting INSERT records…",
                      "Parsing " ++ toString (extract_value_strings t).length ++ " records…",
                      "Writing CSV to map.csv…", "Done!"],
        fetchCalls := 1 } := by
  unfold mainRun
  dsimp only
  rw [if_neg hne, hp]

theorem mainRun_success_parseError {t : String}
    (hne : extract_value_strings t ≠ [])
    (hp : mapOption (fun r => parse_record r 16) (extract_value_strings t) = none) :
    mainRun (.success t) =
      { exitCode := 1, cacheFile := some t, csvArg := none,
        stderrLog := [fetchingMsg, "Saving fetched SQL to map.sql…",
                      "Extracting INSERT records…",
                      "Parsing " ++ toString (extract_value_strings t).length ++ " records…",
                      "Unexpected error: " ++ csvNewlineErrorMsg],
        fetchCalls := 1 } := by
  unfold mainRun
  dsimp only
  rw [if_neg hne, hp]

/-- C3 witness: the amended theorem at the concrete value string
`1,'a,b',3` — the quoted `a,b` stays one field, unsplit. -/
theorem parse_record_keeps_quoted_comma_w :
    pyCsvParseLine (mkFieldsBefore [['1']] ++ '\'' :: ("a,b".data ++ '\'' :: ',' :: "3".data)) =
      some ([['1']] ++ "a,b".data :: [['3']]) ∧
    ∃ r, parse_record
        (String.mk (mkFieldsBefore [['1']] ++ '\'' :: ("a,b".data ++ '\'' :: ',' :: "3".data))) 16 =
          some r ∧
      String.mk "a,b".data ∈ r :=
  parse_record_keeps_quoted_comma [['1']] "a,b".data "3".data [['3']]
    (by decide) (by decide) (by decide) (by decide) (by decide)

/-- C5: whenever parsing all extracted value strings succeeds, the parsed
records are one per extracted value string, every one has exactly 16
columns, and (when any record exists) they are exactly the rows passed to
`write_csv` after the header, matching the extraction count. -/
theorem csv_rows_match_extraction (t : String) (parsed : List (List String))
    (hp : mapOption (fun r => parse_record r 16) (extract_value_strings t) = some parsed) :
    parsed.length = (extract_value_strings t).length ∧
    (∀ row ∈ parsed, row.length = 16) ∧
    (extract_value_strings t ≠ [] → (mainRun (.success t)).csvArg = some parsed) := by
  refine ⟨mapOption_length hp, ?_, ?_⟩
  · intro row hrow
    obtain ⟨s, -, hs⟩ := mapOption_mem hp row hrow
    exact parse_record_length hs
  · intro hne
    rw [mainRun_success_parsed hne hp]

/-- C5 witness: a two-statement text gives two parsed 16-column rows which
are exactly the `write_csv` argument. -/
theorem csv_rows_match_extraction_w :
    ([["1", "2", "", "", "", "", "", "", "", "", "", "", "", "", "", ""],
      ["3", "", "", "", "", "", "", "", "", "", "", "", "", "", "", ""]] :
        List (List String)).length =
      (extract_value_strings
        "INSERT INTO `x_world` VALUES (1,2);\nINSERT INTO `x_world` VALUES (3);").length ∧
    (∀ row ∈ ([["1", "2", "", "", "", "", "", "", "", "", "", "", "", "", "", ""],
      ["3", "", "", "", "", "", "", "", "", "", "", "", "", "", "", ""]] :
        List (List String)), row.length = 16) ∧
    (extract_value_strings
        "INSERT INTO `x_world` VALUES (1,2);\nINSERT INTO `x_world` VALUES (3);" ≠ [] →
      (mainRun (.success
        "INSERT INTO `x_world` VALUES (1,2);\nINSERT INTO `x_world` VALUES (3);")).csvArg =
        some [["1", "2", "", "", "", "", "", "", "", "", "", "", "", "", "", ""],
              ["3", "", "", "", "", "", "", "", "", "", "", "", "", "", "", ""]]) :=
  csv_rows_match_extraction
    "INSERT INTO `x_world` VALUES (1,2);\nINSERT INTO `x_world` VALUES (3);"
    [["1", "2", "", "", "", "", "", "", "", "", "", "", "", "", "", ""],
     ["3", "", "", "", "", "", "", "", "", "", "", "", "", "", "", ""]]
    (by decide)

/-- C6: a run whose fetched text yields no pattern match writes no output
CSV and exits with code 1; a run whose text yields matches and in which no
error occurs (all records parse) exits with code 0. -/
theorem main_exit_codes (t : String) :
    (extract_value_strings t = [] →
      (mainRun (.success t)).exitCode = 1 ∧ (mainRun (.success t)).csvArg = none) ∧
    (∀ parsed : List (List String), extract_value_strings t ≠ [] →
      mapOption (fun r => parse_record r 16) (extract_value_strings t) = some parsed →
      (mainRun (.success t)).exitCode = 0) := by
  constructor
  · intro he
    rw [mainRun_success_empty he]
    exact ⟨rfl, rfl⟩
  · intro parsed hne hp
    rw [mainRun_success_parsed hne hp]

/-- C6 witness: the empty text exits 1 without a CSV; a one-statement text
exits 0. -/
theorem main_exit_codes_w :
    ((mainRun (.success "")).exitCode = 1 ∧ (mainRun (.success "")).csvArg = none) ∧
    (mainRun (.success "INSERT INTO `x_world` VALUES (1);")).exitCode = 0 :=
  ⟨(main_exit_codes "").1 (by decide),
   (main_exit_codes "INSERT INTO `x_world` VALUES (1);").2
     [["1", "", "", "", "", "", "", "", "", "", "", "", "", "", "", ""]]
     (by decide) (by decide)⟩

/-- C7: a `requests.RequestException` (non-2xx or transport failure) aborts
the run with exit code 1, the error reported on stderr, and no CSV output;
any other exception is reported the same way; in every case the URL was
fetched exactly once (no retries). -/
theorem fetch_error_aborts (m : String) :
    (mainRun (.requestError m)).exitCode = 1 ∧
    ("Error fetching SQL: " ++ m) ∈ (mainRun (.requestError m)).stderrLog ∧
    (mainRun (.requestError m)).csvArg = none ∧
    (mainRun (.requestError m)).fetchCalls = 1 ∧
    (mainRun (.otherError m)).exitCode = 1 ∧
    ("Unexpected error: " ++ m) ∈ (mainRun (.otherError m)).stderrLog ∧
    (mainRun (.otherError m)).csvArg = none ∧
    (mainRun (.otherError m)).fetchCalls = 1 := by
  refine ⟨rfl, ?_, rfl, rfl, rfl, ?_, rfl, rfl⟩
  · exact List.mem_cons_of_mem _ (List.mem_cons_self _ _)
  · exact List.mem_cons_of_mem _ (List.mem_cons_self _ _)

/-- C8: on a successful fetch the cache file `map.sql` receives exactly the
fetched SQL text, in every success branch (even when extraction then finds
nothing or parsing fails, since the write precedes them); on a failed fetch
no cache file is written. -/
theorem cache_written_verbatim (t m e : String) :
    (mainRun (.success t)).cacheFile = some t ∧
    (mainRun (.requestError m)).cacheFile = none ∧
    (mainRun (.otherError e)).cacheFile = none := by
  refine ⟨?_, rfl, rfl⟩
  by_cases he : extract_value_strings t = []
  · rw [mainRun_success_empty he]
  · cases hp : mapOption (fun r => parse_record r 16) (extract_value_strings t) with
    | none => rw [mainRun_success_parseError he hp]
    | some parsed => rw [mainRun_success_parsed he hp]

/-- C9: extraction returns the value strings in the order in which their
statements occur in the text, and the rows handed to `write_csv` are the
parses of those strings in exactly that order. -/
theorem output_rows_preserve_order (vs : List String)
    (h : ∀ v ∈ vs, '\n' ∉ v.data ∧ hasRS v.data = false) (hne : vs ≠ [])
    (parsed : List (List String))
    (hp : mapOption (fun r => parse_record r 16) vs = some parsed) :
    extract_value_strings (mkTextS vs) = vs ∧
    (mainRun (.success (mkTextS vs))).csvArg = some parsed := by
  have hex := extract_mkTextS vs h
  refine ⟨hex, ?_⟩
  rw [mainRun_success_parsed (by rw [hex]; exact hne) (by rw [hex]; exact hp)]

/-- C9 witness: two statements in order `9` then `8` come out in that
order, in the extraction and in the CSV rows. -/
theorem output_rows_preserve_order_w :
    extract_value_strings (mkTextS ["9", "8"]) = ["9", "8"] ∧
    (mainRun (.success (mkTextS ["9", "8"]))).csvArg =
      some [["9", "", "", "", "", "", "", "", "", "", "", "", "", "", "", ""],
            ["8", "", "", "", "", "", "", "", "", "", "", "", "", "", "", ""]] :=
  output_rows_preserve_order ["9", "8"] (by decide) (by decide)
    [["9", "", "", "", "", "", "", "", "", "", "", "", "", "", "", ""],
     ["8", "", "", "", "", "", "", "", "", "", "", "", "", "", "", ""]]
    (by decide)

/-- C10: the pattern matches case-insensitively — a lower-case
`insert into ` statement is extracted — but the captured text cannot span
lines, so a statement whose value list contains a newline (and no earlier
terminator, with the pattern literal occurring nowhere after the start)
yields no record. -/
theorem insert_pattern_case_and_newline (v a b : List Char)
    (hv1 : '\n' ∉ v) (hv2 : hasRS v = false)
    (ha : hasRS a = false)
    (hno : ∀ n, n < (mlText a b).length → 0 < n → hdrAt ((mlText a b).drop n) = false) :
    reFindall (lcStmt v) = [v] ∧ reFindall (mlText a b) = [] := by
  constructor
  · have hm : matchAt (lcStmt v) = some (v, []) := by
      unfold lcStmt
      exact matchAt_build (by decide) v [] hv2 hv1
    rw [reFindall_eq_cons hm]
    rfl
  · apply reFindall_nil_of_none
    intro n
    by_cases h0 : n = 0
    · subst h0
      rw [List.drop_zero]
      unfold mlText
      rw [matchAt_strip_some (stripCaseless_append stripCaseless_ucHdr)]
      unfold matchAfterLit
      have hdw : (([' ', '('] ++ (a ++ '\n' :: (b ++ [')', ';'])))).dropWhile isPySpace =
          '(' :: (a ++ '\n' :: (b ++ [')', ';'])) := by
        simp [List.dropWhile, isPySpace]
      rw [hdw]
      simpa using captureLazy_newline a ha (b ++ [')', ';']) []
    · have hn0 : 0 < n := Nat.pos_of_ne_zero h0
      by_cases hlt : n < (mlText a b).length
      · exact matchAt_none_of_noHdr (hno n hlt hn0)
      · rw [List.drop_eq_nil_of_le (le_of_not_lt hlt), matchAt_nil]

/-- C10 witness: `insert into ` in lower case is matched at the value
string `1,2`; a statement whose value list `1,2` newline `3` spans two
lines yields no record. -/
theorem insert_pattern_case_and_newline_w :
    reFindall (lcStmt "1,2".data) = ["1,2".data] ∧
    reFindall (mlText "1,2".data "3".data) = [] :=
  insert_pattern_case_and_newline "1,2".data "1,2".data "3".data
    (by decide) (by decide) (by decide) (by decide)
